import Mathlib

/-!
Verification of the quill-delta-rs core: the operation data model (`src/op.rs`)
and the HTML rendering engine (`src/renderer.rs`), shallowly embedded in Lean.

Conventions of the embedding:
* Rust strings are modelled as `List Char`.  The renderer only indexes a string
  at positions that sit on character boundaries (offset `0`, positions just past
  a `'\n'`, or the end), so byte indices in the source correspond one-to-one to
  character indices here; `Op::len`, which is the UTF-8 *byte* length in Rust,
  is modelled separately by `utf8_len`.
* `serde_json::Value` is modelled by the inductive `Value`; numbers keep just
  the structure the code observes (`as_u64`).
* Panics (`assert_ne!`, explicit `panic!`) are modelled by `Option` results
  (`none` = the construction aborts); `Result` is modelled by `Except`.
* The `while` loops of the renderer are modelled with an explicit fuel
  parameter; `render` passes a fuel bound computed from the input that is large
  enough for every execution appearing in the theorems below.
-/

/-- The numeric payload of a JSON number, as observed through `as_u64`:
an integer, or a floating-point number (for which `as_u64` is `None`). -/
inductive JNum where
  | int (i : Int)
  | float
  deriving DecidableEq

/-- Embeds `serde_json::Number::as_u64`: `Some` exactly for non-negative integers. -/
def JNum.as_u64 : JNum → Option Nat
  | .int i => if 0 ≤ i then some i.toNat else none
  | .float => none

/-- Embeds `serde_json::Value`, with the shape the core observes: strings, numbers,
booleans, null, and opaque structured values (objects/arrays). -/
inductive Value where
  | str (s : List Char)
  | num (n : JNum)
  | bool (b : Bool)
  | null
  | obj
  deriving DecidableEq

/-- Embeds `matches!(v, Value::String(_))`. -/
def Value.is_string : Value → Bool
  | .str _ => true
  | _ => false

/-- Modelled from the spec: the attribute container
(`crate::attributes::AttributesMap`, whose source is not under `src/`) is an
ordered mapping with unique string keys and JSON-like values, exposing a
`get(key)` lookup and an `is_empty` test.  It is modelled as an association
list; `attrs_get` returns the first binding of the key. -/
abbrev AttributesMap := List (String × Value)

/-- Modelled from the spec: `AttributesMap::get`. -/
def attrs_get (m : AttributesMap) (k : String) : Option Value :=
  (m.find? (fun p => p.1 == k)).map (fun p => p.2)

/-- Kind of operation that Deltas support (`OpType` in `src/op.rs`). -/
inductive OpType where
  | insert (v : Value)
  | retain (n : Nat)
  | delete (n : Nat)
  deriving DecidableEq

/-- An operation in a Delta (`Op` in `src/op.rs`). -/
structure Op where
  kind : OpType
  attributes : AttributesMap
  deriving DecidableEq

/-- Embeds `Op::insert`: it panics (here `none`) when a non-string value is combined
with a non-empty attributes map. -/
def Op.insert (object : Value) (attributes : Option AttributesMap) : Option Op :=
  if Value.is_string object = false
      ∧ attributes.isSome = true
      ∧ (attributes.getD []).isEmpty = false then
    none
  else
    some { kind := OpType.insert object,
           attributes := match attributes with
             | some attrs => attrs
             | none => [] }

/-- Embeds `Op::try_insert`: the same check as `Op::insert`, reported as an error
instead of a panic. -/
def Op.try_insert (object : Value) (attributes : Option AttributesMap) :
    Except String Op :=
  if Value.is_string object = false
      ∧ attributes.isSome = true
      ∧ (attributes.getD []).isEmpty = false then
    .error "Insert error: Cannot combine attributes with an inserted value other than a string."
  else
    .ok { kind := OpType.insert object,
          attributes := match attributes with
            | some attrs => attrs
            | none => [] }

/-- Embeds `Op::retain`; the `assert_ne!(length, 0)` panic is modelled by `none`. -/
def Op.retain (length : Nat) (attributes : Option AttributesMap) : Option Op :=
  if length = 0 then none
  else
    some { kind := OpType.retain length,
           attributes := match attributes with
             | some attrs => attrs
             | none => [] }

/-- Embeds `Op::delete`; the `assert_ne!(length, 0)` panic is modelled by `none`. -/
def Op.delete (length : Nat) : Option Op :=
  if length = 0 then none
  else some { kind := OpType.delete length, attributes := [] }

/-- Embeds `Op::is_insert`. -/
def Op.is_insert (op : Op) : Bool :=
  match op.kind with
  | .insert _ => true
  | _ => false

/-- Embeds `Op::is_text_insert`. -/
def Op.is_text_insert (op : Op) : Bool :=
  match op.kind with
  | .insert (.str _) => true
  | _ => false

/-- Embeds `Op::is_retain`. -/
def Op.is_retain (op : Op) : Bool :=
  match op.kind with
  | .retain _ => true
  | _ => false

/-- Embeds `Op::is_delete`. -/
def Op.is_delete (op : Op) : Bool :=
  match op.kind with
  | .delete _ => true
  | _ => false

/-- The UTF-8 byte length of a string: what Rust's `str::len` returns. -/
def utf8_len (s : List Char) : Nat :=
  s.foldl (fun n c => n + c.utf8Size) 0

/-- Embeds `Op::len`: `s.len()` (UTF-8 bytes) for a text insert, `1` for any other
insert, the stored span length for retain/delete. -/
def Op.len (op : Op) : Nat :=
  match op.kind with
  | .insert v =>
    match v with
    | .str s => utf8_len s
    | _ => 1
  | .retain n => n
  | .delete n => n

/-- Embeds `Op::attributes`: `None` for `Delete`, `None` for an empty backing map,
otherwise the map.  (`attributesOpt` because the backing field is already
called `attributes`.) -/
def Op.attributesOpt (op : Op) : Option AttributesMap :=
  match op.kind with
  | .delete _ => none
  | _ => if op.attributes.isEmpty then none else some op.attributes

/-- Embeds `Op::value_as_string`: the text of a string insert.  In the source this
panics on every other operation; the renderer only calls it under an
`is_text_insert` guard, and the embedding returns `[]` outside that guard. -/
def Op.value_as_string (op : Op) : List Char :=
  match op.kind with
  | .insert (.str s) => s
  | _ => []

/-! ## The renderer (`src/renderer.rs`) -/

/-- A segment produced by the segmenter (`LineVisitor` in `src/renderer.rs`):
a line terminated by a newline (the newline stripped), or an inline run. -/
inductive LineVisitor where
  | newLine (str : List Char) (op : Op)
  | inline (str : List Char) (op : Op)
  deriving DecidableEq

/-- The list kinds recognized by `get_list_tag` (`ListType`). -/
inductive ListType where
  | ordered
  | bullet
  deriving DecidableEq

/-- The segmenter state (`OpVistorCtx`): the remaining operations (consumed
from the *end* of the slice, as the source's `ops.last()`/`split_last` do), a
character offset into the last operation's text, the one-slot segment cache,
and the pending inline buffer. -/
structure OpVistorCtx where
  ops : List Op
  insert_index : Nat
  current : Option LineVisitor
  inline_buf : String
  deriving DecidableEq

/-- Embeds `str::split('\n').next()` on the remainder: the prefix before the first
newline.  Rust's split iterator always yields at least one piece, so the
result is always `some`; the source's `None` arm is dead code. -/
def split_next (l : List Char) : Option (List Char) :=
  some (l.takeWhile (fun c => c != '\n'))

/-- One call of `OpVistorCtx::next`, on the `(ops, insert_index)` part of the
state: the `while true` loop, with fuel `ops.length` (each pass through the
loop drops the last operation, so that fuel is exact).  Returns the new
`(ops, insert_index)` and the produced segment (`None` at end of stream). -/
def vnextAux : Nat → List Op → Nat → List Op × Nat × Option LineVisitor
  | 0, ops, idx => (ops, idx, none)
  | n + 1, ops, idx =>
    match ops.getLast? with
    | none => (ops, idx, none)
    | some op =>
      if op.is_text_insert then
        let s := op.value_as_string
        if idx < s.length then
          if '\n' ∉ s then
            (ops, s.length, some (.inline s op))
          else
            match split_next (s.drop idx) with
            | some r => (ops, idx + r.length + 1, some (.newLine r op))
            | none => (ops, s.length, some (.inline s op))
        else vnextAux n ops.dropLast 0
      else vnextAux n ops.dropLast 0

/-- Embeds `OpVistorCtx::next` on the cursor part of the state. -/
def vnext (ops : List Op) (idx : Nat) : List Op × Nat × Option LineVisitor :=
  vnextAux ops.length ops idx

/-- Embeds `OpVistorCtx::next`: advance the cursor and refill the one-slot cache. -/
def OpVistorCtx.next (c : OpVistorCtx) : OpVistorCtx :=
  let r := vnext c.ops c.insert_index
  { ops := r.1, insert_index := r.2.1, current := r.2.2, inline_buf := c.inline_buf }

/-- Embeds `OpVistorCtx::current`: return the cached segment, computing it through
`next` on first access. -/
def OpVistorCtx.curr (c : OpVistorCtx) : OpVistorCtx :=
  match c.current with
  | none => c.next
  | some _ => c

/-- Embeds `OpVistorCtx::has_inline`. -/
def OpVistorCtx.has_inline (c : OpVistorCtx) : Bool :=
  !c.inline_buf.isEmpty

/-- Embeds `OpVistorCtx::append_inline`. -/
def OpVistorCtx.append_inline (c : OpVistorCtx) (s : String) : OpVistorCtx :=
  { c with inline_buf := c.inline_buf ++ s }

/-- Embeds `OpVistorCtx::flush_inline`: emit the pending buffer (returned as the
second component, in emission order) and clear it. -/
def flush_inline (c : OpVistorCtx) : OpVistorCtx × String :=
  if c.inline_buf.isEmpty then (c, "")
  else ({ c with inline_buf := "" }, c.inline_buf)

/-- Embeds `get_list_tag` (nested in `DeltaHTML::write_into`). -/
def get_list_tag (op : Op) : Option ListType :=
  match op.attributesOpt with
  | none => none
  | some attrs =>
    match attrs_get attrs "list" with
    | some (Value.str list_type) =>
      if list_type = "ordered".toList then some ListType.ordered
      else if list_type = "bullet".toList then some ListType.bullet
      else none
    | _ => none

/-- The `if let Some(Value::Bool(x)) = attrs.get(key)` pattern of
`inline_vistor`: a formatting flag is on exactly when the key is present with
a boolean `true`; absent, non-boolean or `false` values leave it off. -/
def bool_flag (op : Op) (key : String) : Bool :=
  match op.attributesOpt with
  | none => false
  | some attrs =>
    match attrs_get attrs key with
    | some (Value.bool b) => b
    | _ => false

/-- Embeds `inline_vistor`: wrap an inline segment in the enabled formatting tags
(opening tags from the reversed `[b, em, u, s]` array, closing tags forward)
and append the result to the pending inline buffer. -/
def inline_vistor (vistor : OpVistorCtx) (current : Op) (str : List Char) :
    OpVistorCtx :=
  let is_bold := bool_flag current "bold"
  let is_italic := bool_flag current "italic"
  let is_underline := bool_flag current "underline"
  let is_strike := bool_flag current "strike"
  let tags : List (String × Bool) :=
    [("b", is_bold), ("em", is_italic), ("u", is_underline), ("s", is_strike)]
  let vistor := tags.reverse.foldl
    (fun v tag => if tag.2 then v.append_inline ("<" ++ tag.1 ++ ">") else v) vistor
  let vistor := vistor.append_inline (String.mk str)
  let vistor := tags.foldl
    (fun v tag => if tag.2 then v.append_inline ("</" ++ tag.1 ++ ">") else v) vistor
  vistor

/-- The total segment weight of a delta: an upper bound (plus slack) on how
many loop iterations the renderer can spend on it; used only to compute fuel. -/
def delta_weight (ops : List Op) : Nat :=
  (ops.map (fun op => op.value_as_string.length + 1)).sum

/-- Fuel for the inner `while` loop of `vistor_list`. -/
def seg_bound (ops : List Op) : Nat :=
  delta_weight ops + 1

/-- The inner `while let Some(c) = visitor.next()` loop of `vistor_list`,
with explicit fuel.  Returns the state after the loop and the emitted
`<li>` items. -/
def list_loop : Nat → OpVistorCtx → OpVistorCtx × String
  | 0, c => (c, "")
  | n + 1, c =>
    let c := c.next
    match c.current with
    | none => (c, "")
    | some (LineVisitor.newLine str op) =>
      if get_list_tag op = none then (c, "")
      else
        let (c, fl) := flush_inline c
        let (c, rest) := list_loop n c
        (c, "<li>" ++ fl ++ String.mk str ++ "</li>" ++ rest)
    | some (LineVisitor.inline str op) =>
      let c := inline_vistor c op str
      let (c, rest) := list_loop n c
      (c, rest)

/-- Embeds `vistor_list`: it claims the current segment when it is a line whose op has a
recognized `list` attribute; the detection consumes the line, and the inner
loop then emits the subsequent list lines as `<li>` items inside `<ul>`. -/
def vistor_list (visitor : OpVistorCtx) : OpVistorCtx × String × Bool :=
  let visitor := visitor.curr
  match visitor.current with
  | some (LineVisitor.newLine _ op) =>
    match get_list_tag op with
    | some _ =>
      let (visitor, inner) := list_loop (seg_bound visitor.ops) visitor
      (visitor, "<ul>" ++ inner ++ "</ul>", true)
    | none => (visitor, "", false)
  | _ => (visitor, "", false)

/-- Embeds `vistor_header`: it claims the current line when its op carries a numeric
`header` attribute representable as `u64`; the level is `min 6 l` and the
handler advances the cursor once after emitting. -/
def vistor_header (visitor : OpVistorCtx) : OpVistorCtx × String × Bool :=
  let visitor := visitor.curr
  match visitor.current with
  | some (LineVisitor.newLine str op) =>
    match op.attributesOpt with
    | some attrs =>
      match attrs_get attrs "header" with
      | some (Value.num level) =>
        match level.as_u64 with
        | some l =>
          let l := min 6 l
          let (visitor, fl) := flush_inline visitor
          (visitor.next,
           "<h" ++ toString l ++ ">" ++ fl ++ String.mk str ++ "</h" ++ toString l ++ ">",
           true)
        | none => (visitor, "", false)
      | _ => (visitor, "", false)
    | none => (visitor, "", false)
  | _ => (visitor, "", false)

/-- Embeds `walk_visitor`: the main `while let Some(op) = visitors.current()` loop,
with explicit fuel, followed by the end-of-stream flush of the inline buffer
into a final paragraph. -/
def walkAux : Nat → OpVistorCtx → String
  | 0, _ => ""
  | n + 1, visitors =>
    let visitors := visitors.curr
    match visitors.current with
    | none =>
      if visitors.has_inline then "<p>" ++ visitors.inline_buf ++ "</p>" else ""
    | some (LineVisitor.newLine str _) =>
      match vistor_list visitors with
      | (v1, out, true) => out ++ walkAux n v1
      | (v1, _, false) =>
        match vistor_header v1 with
        | (v2, out, true) => out ++ walkAux n v2
        | (v2, _, false) =>
          let (v3, fl) := flush_inline v2
          "<p>" ++ fl ++ String.mk str ++ "</p>" ++ walkAux n v3.next
    | some (LineVisitor.inline str op) =>
      walkAux n ((inline_vistor visitors op str).next)

/-- Fuel for `walk_visitor`'s loop. -/
def walk_fuel (ops : List Op) : Nat :=
  delta_weight ops + 2

/-- Embeds `DeltaHTML::write_into`: run `walk_visitor` over a fresh segmenter state
and collect everything written to the sink. -/
def render (ops : List Op) : String :=
  walkAux (walk_fuel ops)
    { ops := ops, insert_index := 0, current := none, inline_buf := "" }

/-! ## Helper definitions for the theorems -/

/-- A text insert op (built directly, as the renderer accepts any `Op`). -/
def mkTextOp (t : List Char) (m : AttributesMap) : Op :=
  { kind := OpType.insert (Value.str t), attributes := m }

/-- A newline-terminated text insert: one op contributing exactly one line. -/
def mkLine (t : List Char) (m : AttributesMap) : Op :=
  mkTextOp (t ++ ['\n']) m

/-- A delta whose segment stream is the given lines in order: because the
segmenter consumes operations from the end of the slice, the op list is the
reverse of the segment order. -/
def mk_run (ls : List (List Char × AttributesMap)) : List Op :=
  (ls.map (fun p => mkLine p.1 p.2)).reverse

/-- The `<li>` items the list loop emits for the given lines. -/
def run_items : List (List Char × AttributesMap) → String
  | [] => ""
  | p :: ls => "<li>" ++ String.mk p.1 ++ "</li>" ++ run_items ls

/-- The stream after `rest` ends a list run legally: either it is exhausted,
or its next segment is a line without a recognized list attribute. -/
def run_terminates (rest : List Op) : Bool :=
  match (vnext rest 0).2.2 with
  | none => true
  | some (LineVisitor.newLine _ op) => (get_list_tag op).isNone
  | some (LineVisitor.inline _ _) => false

/-- What the header/paragraph handler chain emits for a line segment reaching
it with an empty inline buffer. -/
def line_block_html (t : List Char) (op : Op) : String :=
  match op.attributesOpt with
  | some attrs =>
    match attrs_get attrs "header" with
    | some (Value.num level) =>
      match level.as_u64 with
      | some l =>
        "<h" ++ toString (min 6 l) ++ ">" ++ String.mk t ++ "</h" ++ toString (min 6 l) ++ ">"
      | none => "<p>" ++ String.mk t ++ "</p>"
    | _ => "<p>" ++ String.mk t ++ "</p>"
  | none => "<p>" ++ String.mk t ++ "</p>"

/-! ## Basic lemmas -/

theorem takeWhile_no_newline : ∀ (l : List Char), '\n' ∉ l →
    l.takeWhile (fun c => c != '\n') = l := by
  intro l
  induction l with
  | nil => intro _; rfl
  | cons c l ih =>
    intro h
    have hc : c ≠ '\n' := fun hc => h (hc ▸ List.mem_cons_self c l)
    have hl : '\n' ∉ l := fun hm => h (List.mem_cons_of_mem c hm)
    simp [List.takeWhile_cons, hc, ih hl]

theorem takeWhile_upto_newline : ∀ (a b : List Char), '\n' ∉ a →
    (a ++ '\n' :: b).takeWhile (fun c => c != '\n') = a := by
  intro a b
  induction a with
  | nil => intro _; simp [List.takeWhile_cons]
  | cons c a ih =>
    intro h
    have hc : c ≠ '\n' := fun hc => h (hc ▸ List.mem_cons_self c a)
    have ha : '\n' ∉ a := fun hm => h (List.mem_cons_of_mem c hm)
    simp [List.takeWhile_cons, hc, ih ha]

theorem delta_weight_ge_length (ops : List Op) : ops.length ≤ delta_weight ops := by
  induction ops with
  | nil => simp [delta_weight]
  | cons op rest ih =>
    simp only [delta_weight, List.map_cons, List.sum_cons, List.length_cons] at *
    omega

/-! ## Segmenter step lemmas -/

theorem vnext_nil (idx : Nat) : vnext [] idx = ([], idx, none) := rfl

/-- Skipping the last operation: not a text insert, or text already consumed. -/
theorem vnext_skip (xs : List Op) (op : Op) (idx : Nat)
    (h : op.is_text_insert = false ∨ op.value_as_string.length ≤ idx) :
    vnext (xs ++ [op]) idx = vnext xs 0 := by
  simp only [vnext, List.length_append, List.length_singleton]
  rw [show xs.length + 1 = xs.length + 1 from rfl]
  simp only [vnextAux, List.getLast?_concat, List.dropLast_concat]
  rcases h with h | h
  · simp [h]
  · cases ht : op.is_text_insert with
    | false => simp
    | true => simp [Nat.not_lt.mpr h]

/-- Producing the first line of the last operation, whose text is
`a ++ '\n' :: b` with no newline in `a`. -/
theorem vnext_line0 (xs : List Op) (a b : List Char) (m : AttributesMap)
    (h : '\n' ∉ a) :
    vnext (xs ++ [mkTextOp (a ++ '\n' :: b) m]) 0 =
      (xs ++ [mkTextOp (a ++ '\n' :: b) m], a.length + 1,
       some (.newLine a (mkTextOp (a ++ '\n' :: b) m))) := by
  simp only [vnext, List.length_append, List.length_singleton]
  simp only [vnextAux, List.getLast?_concat]
  have h1 : (mkTextOp (a ++ '\n' :: b) m).is_text_insert = true := rfl
  have h2 : (mkTextOp (a ++ '\n' :: b) m).value_as_string = a ++ '\n' :: b := rfl
  simp only [h1, h2, if_true]
  have h3 : 0 < (a ++ '\n' :: b).length := by simp
  have h4 : '\n' ∈ a ++ '\n' :: b := by simp
  simp [h3, h4, split_next, takeWhile_upto_newline a b h]

/-- Producing the whole remaining operation as an inline segment when its full
text contains no newline. -/
theorem vnext_inline_whole (xs : List Op) (t : List Char) (m : AttributesMap)
    (h : '\n' ∉ t) (hne : t ≠ []) :
    vnext (xs ++ [mkTextOp t m]) 0 =
      (xs ++ [mkTextOp t m], t.length, some (.inline t (mkTextOp t m))) := by
  simp only [vnext, List.length_append, List.length_singleton]
  simp only [vnextAux, List.getLast?_concat]
  have h1 : (mkTextOp t m).is_text_insert = true := rfl
  have h2 : (mkTextOp t m).value_as_string = t := rfl
  simp only [h1, h2, if_true]
  have h3 : 0 < t.length := List.length_pos.mpr hne
  simp [h3, h]

/-- Producing the trailing tail of the last operation: the text is
`a ++ '\n' :: b`, the first line `a` has been consumed, and the remainder `b`
contains no newline — yet, because the whole-text newline check succeeds, the
tail is produced as a `newLine` segment, not as an inline one. -/
theorem vnext_tail (xs : List Op) (a b : List Char) (m : AttributesMap)
    (hb : '\n' ∉ b) (hbne : b ≠ []) :
    vnext (xs ++ [mkTextOp (a ++ '\n' :: b) m]) (a.length + 1) =
      (xs ++ [mkTextOp (a ++ '\n' :: b) m], a.length + 1 + b.length + 1,
       some (.newLine b (mkTextOp (a ++ '\n' :: b) m))) := by
  simp only [vnext, List.length_append, List.length_singleton]
  simp only [vnextAux, List.getLast?_concat]
  have h1 : (mkTextOp (a ++ '\n' :: b) m).is_text_insert = true := rfl
  have h2 : (mkTextOp (a ++ '\n' :: b) m).value_as_string = a ++ '\n' :: b := rfl
  simp only [h1, h2, if_true]
  have h3 : a.length + 1 < (a ++ '\n' :: b).length := by
    simp only [List.length_append, List.length_cons]
    have := List.length_pos.mpr hbne
    omega
  have h4 : '\n' ∈ a ++ '\n' :: b := by simp
  have h5 : (a ++ '\n' :: b).drop (a.length + 1) = b := by
    have : a ++ '\n' :: b = (a ++ ['\n']) ++ b := by simp
    rw [this, show a.length + 1 = (a ++ ['\n']).length by simp, List.drop_left]
  simp [h3, h4, split_next, h5, takeWhile_no_newline b hb, hbne]

theorem str_empty_append (s : String) : "" ++ s = s := rfl

theorem str_isEmpty_empty : "".isEmpty = true := rfl

theorem get_list_tag_mkLine_some (t : List Char) (m : AttributesMap)
    (h : attrs_get m "list" = some (Value.str "ordered".toList) ∨
         attrs_get m "list" = some (Value.str "bullet".toList)) :
    (get_list_tag (mkLine t m)).isSome = true := by
  have hm : m.isEmpty = false := by
    cases m with
    | nil => rcases h with h | h <;> simp [attrs_get] at h
    | cons q m => rfl
  have hOpt : (mkLine t m).attributesOpt = some m := by
    simp [Op.attributesOpt, mkLine, mkTextOp, hm]
  rcases h with h | h <;> simp [get_list_tag, hOpt, h]

theorem get_list_tag_mkLine_none (t : List Char) (m : AttributesMap)
    (h : attrs_get m "list" = none) :
    get_list_tag (mkLine t m) = none := by
  cases hm : m.isEmpty with
  | true =>
    have : (mkLine t m).attributesOpt = none := by
      simp [Op.attributesOpt, mkLine, mkTextOp, hm]
    simp [get_list_tag, this]
  | false =>
    have : (mkLine t m).attributesOpt = some m := by
      simp [Op.attributesOpt, mkLine, mkTextOp, hm]
    simp [get_list_tag, this, h]

theorem walk_nil_empty (n : Nat) (idx : Nat) :
    walkAux (n + 1) ⟨[], idx, none, ""⟩ = "" := by
  simp [walkAux, OpVistorCtx.curr, OpVistorCtx.next, vnext_nil, OpVistorCtx.has_inline,
    str_isEmpty_empty]

theorem mk_run_cons (p : List Char × AttributesMap) (ls : List (List Char × AttributesMap)) :
    mk_run (p :: ls) = mk_run ls ++ [mkLine p.1 p.2] := by
  simp [mk_run]

theorem flush_inline_empty (ops : List Op) (idx : Nat) (cur : Option LineVisitor) :
    flush_inline ⟨ops, idx, cur, ""⟩ = (⟨ops, idx, cur, ""⟩, "") := by
  simp [flush_inline, str_isEmpty_empty]


/-- One-step unfolding of `list_loop`, for controlled rewriting. -/
theorem list_loop_step (n : Nat) (c : OpVistorCtx) :
    list_loop (n + 1) c =
      (match (c.next).current with
      | none => (c.next, "")
      | some (LineVisitor.newLine str op) =>
        if get_list_tag op = none then (c.next, "")
        else
          ((list_loop n (flush_inline c.next).1).1,
           "<li>" ++ (flush_inline c.next).2 ++ String.mk str ++ "</li>" ++
             (list_loop n (flush_inline c.next).1).2)
      | some (LineVisitor.inline str op) =>
        ((list_loop n (inline_vistor c.next op str)).1,
         (list_loop n (inline_vistor c.next op str)).2)) := by
  rw [list_loop]

/-- The inner loop of `vistor_list`, run over a complete list group: after a
qualifying first line has already been produced from the (now exhausted) last
operation `prev`, the loop emits one `<li>` per remaining list line of the
group and stops at the stream position described by `rest`, without consuming
the terminating segment. -/
theorem list_loop_run :
    ∀ (ls : List (List Char × AttributesMap)) (n : Nat) (rest : List Op)
      (prev : Op) (pidx : Nat) (cur : Option LineVisitor),
      (prev.is_text_insert = false ∨ prev.value_as_string.length ≤ pidx) →
      (∀ p ∈ ls, (get_list_tag (mkLine p.1 p.2)).isSome = true ∧ '\n' ∉ p.1) →
      run_terminates rest = true →
      list_loop (n + ls.length + 1) ⟨rest ++ mk_run ls ++ [prev], pidx, cur, ""⟩ =
        (⟨(vnext rest 0).1, (vnext rest 0).2.1, (vnext rest 0).2.2, ""⟩, run_items ls) := by
  intro ls
  induction ls with
  | nil =>
    intro n rest prev pidx cur hskip hls hterm
    simp only [mk_run, List.map_nil, List.reverse_nil, List.append_nil, List.length_nil,
      Nat.add_zero]
    rw [list_loop_step]
    have hnext : OpVistorCtx.next ⟨rest ++ [prev], pidx, cur, ""⟩ =
        ⟨(vnext rest 0).1, (vnext rest 0).2.1, (vnext rest 0).2.2, ""⟩ := by
      simp only [OpVistorCtx.next]
      rw [vnext_skip rest prev pidx hskip]
    rw [hnext]
    unfold run_terminates at hterm
    rcases hc : (vnext rest 0).2.2 with _ | seg
    · simp [hc, run_items]
    · rw [hc] at hterm
      cases seg with
      | newLine s op =>
        have hn : get_list_tag op = none := by
          simpa [Option.isNone_iff_eq_none] using hterm
        simp [hc, hn, run_items]
      | inline s op => simp at hterm
  | cons p ls ih =>
    intro n rest prev pidx cur hskip hls hterm
    have hp1 : '\n' ∉ p.1 := (hls p (List.mem_cons_self p ls)).2
    obtain ⟨tag, htag⟩ :=
      Option.isSome_iff_exists.mp (hls p (List.mem_cons_self p ls)).1
    rw [mk_run_cons]
    rw [show rest ++ (mk_run ls ++ [mkLine p.1 p.2]) ++ [prev]
          = ((rest ++ mk_run ls) ++ [mkLine p.1 p.2]) ++ [prev] by simp]
    simp only [List.length_cons]
    rw [show n + (ls.length + 1) + 1 = (n + ls.length + 1) + 1 by omega]
    rw [list_loop_step]
    have hnext : OpVistorCtx.next
        ⟨((rest ++ mk_run ls) ++ [mkLine p.1 p.2]) ++ [prev], pidx, cur, ""⟩ =
        ⟨(rest ++ mk_run ls) ++ [mkLine p.1 p.2], p.1.length + 1,
         some (LineVisitor.newLine p.1 (mkLine p.1 p.2)), ""⟩ := by
      simp only [OpVistorCtx.next]
      rw [vnext_skip _ prev pidx hskip]
      rw [show mkLine p.1 p.2 = mkTextOp (p.1 ++ '\n' :: []) p.2 from rfl]
      rw [vnext_line0 (rest ++ mk_run ls) p.1 [] p.2 hp1]
    rw [hnext]
    have hih := ih n rest (mkLine p.1 p.2) (p.1.length + 1)
      (some (LineVisitor.newLine p.1 (mkLine p.1 p.2)))
      (Or.inr (by simp [mkLine, mkTextOp, Op.value_as_string]))
      (fun q hq => hls q (List.mem_cons_of_mem p hq)) hterm
    rw [show rest ++ mk_run ls ++ [mkLine p.1 p.2]
          = (rest ++ mk_run ls) ++ [mkLine p.1 p.2] by simp] at hih
    simp only [htag, flush_inline_empty, hih, run_items]
    simp [str_empty_append]

/-- One-step unfolding of `walkAux`, for controlled rewriting. -/
theorem walkAux_step (n : Nat) (c : OpVistorCtx) :
    walkAux (n + 1) c =
      (match c.curr.current with
      | none =>
        if c.curr.has_inline then "<p>" ++ c.curr.inline_buf ++ "</p>" else ""
      | some (LineVisitor.newLine str _) =>
        match vistor_list c.curr with
        | (v1, out, true) => out ++ walkAux n v1
        | (v1, _, false) =>
          match vistor_header v1 with
          | (v2, out, true) => out ++ walkAux n v2
          | (v2, _, false) =>
            "<p>" ++ (flush_inline v2).2 ++ String.mk str ++ "</p>" ++
              walkAux n (flush_inline v2).1.next
      | some (LineVisitor.inline str op) =>
        walkAux n ((inline_vistor c.curr op str).next)) := by
  rw [walkAux]

/-- Calling `current()` on a state with a cached segment is the identity. -/
theorem curr_of_some (ops : List Op) (idx : Nat) (seg : LineVisitor) (buf : String) :
    OpVistorCtx.curr ⟨ops, idx, some seg, buf⟩ = ⟨ops, idx, some seg, buf⟩ := rfl

/-- Dispatching a line segment that is the last segment of the stream, with an
empty inline buffer, through the handler chain: the list handler rejects it,
and the header handler or the paragraph fallback renders it. -/
theorem walk_last_line (n : Nat) (t : List Char) (op : Op) (ops : List Op) (idx : Nat)
    (hlist : get_list_tag op = none)
    (hnext : vnext ops idx = ([], 0, none)) :
    walkAux (n + 1 + 1) ⟨ops, idx, some (.newLine t op), ""⟩ = line_block_html t op := by
  have hvl : vistor_list ⟨ops, idx, some (.newLine t op), ""⟩ =
      (⟨ops, idx, some (.newLine t op), ""⟩, "", false) := by
    simp [vistor_list, OpVistorCtx.curr, hlist]
  have hstepnext : OpVistorCtx.next ⟨ops, idx, some (.newLine t op), ""⟩ =
      ⟨[], 0, none, ""⟩ := by
    simp [OpVistorCtx.next, hnext]
  unfold line_block_html
  rcases hOpt : op.attributesOpt with _ | attrs
  · have hvh : vistor_header ⟨ops, idx, some (.newLine t op), ""⟩ =
        (⟨ops, idx, some (.newLine t op), ""⟩, "", false) := by
      simp [vistor_header, OpVistorCtx.curr, hOpt]
    simp [walkAux_step, OpVistorCtx.curr, hvl, hvh, hstepnext, hnext, flush_inline_empty,
      OpVistorCtx.next, vnext_nil, OpVistorCtx.has_inline, str_isEmpty_empty,
      str_empty_append]
  · rcases hGet : attrs_get attrs "header" with _ | v
    · have hvh : vistor_header ⟨ops, idx, some (.newLine t op), ""⟩ =
          (⟨ops, idx, some (.newLine t op), ""⟩, "", false) := by
        simp [vistor_header, OpVistorCtx.curr, hOpt, hGet]
      simp [walkAux_step, OpVistorCtx.curr, hvl, hvh, hstepnext, hnext, hGet, flush_inline_empty,
        OpVistorCtx.next, vnext_nil, OpVistorCtx.has_inline, str_isEmpty_empty,
        str_empty_append]
    · cases v with
      | num level =>
        rcases hU : level.as_u64 with _ | l
        · have hvh : vistor_header ⟨ops, idx, some (.newLine t op), ""⟩ =
              (⟨ops, idx, some (.newLine t op), ""⟩, "", false) := by
            simp [vistor_header, OpVistorCtx.curr, hOpt, hGet, hU]
          simp [walkAux_step, OpVistorCtx.curr, hvl, hvh, hstepnext, hnext, hGet, hU,
            flush_inline_empty,
            OpVistorCtx.next, vnext_nil, OpVistorCtx.has_inline, str_isEmpty_empty,
            str_empty_append]
        · have hvh : vistor_header ⟨ops, idx, some (.newLine t op), ""⟩ =
              (⟨[], 0, none, ""⟩,
               "<h" ++ toString (min 6 l) ++ ">" ++ "" ++ String.mk t ++
                 "</h" ++ toString (min 6 l) ++ ">", true) := by
            simp [vistor_header, OpVistorCtx.curr, hOpt, hGet, hU, flush_inline_empty,
              hstepnext]
          simp [walkAux_step, OpVistorCtx.curr, hvl, hvh, hGet, hU,
            OpVistorCtx.next, vnext_nil, OpVistorCtx.has_inline, str_isEmpty_empty,
            str_empty_append, String.append_empty]
      | str s =>
        have hvh : vistor_header ⟨ops, idx, some (.newLine t op), ""⟩ =
            (⟨ops, idx, some (.newLine t op), ""⟩, "", false) := by
          simp [vistor_header, OpVistorCtx.curr, hOpt, hGet]
        simp [walkAux_step, OpVistorCtx.curr, hvl, hvh, hstepnext, hnext, hGet, flush_inline_empty,
          OpVistorCtx.next, vnext_nil, OpVistorCtx.has_inline, str_isEmpty_empty,
          str_empty_append]
      | bool b =>
        have hvh : vistor_header ⟨ops, idx, some (.newLine t op), ""⟩ =
            (⟨ops, idx, some (.newLine t op), ""⟩, "", false) := by
          simp [vistor_header, OpVistorCtx.curr, hOpt, hGet]
        simp [walkAux_step, OpVistorCtx.curr, hvl, hvh, hstepnext, hnext, hGet, flush_inline_empty,
          OpVistorCtx.next, vnext_nil, OpVistorCtx.has_inline, str_isEmpty_empty,
          str_empty_append]
      | null =>
        have hvh : vistor_header ⟨ops, idx, some (.newLine t op), ""⟩ =
            (⟨ops, idx, some (.newLine t op), ""⟩, "", false) := by
          simp [vistor_header, OpVistorCtx.curr, hOpt, hGet]
        simp [walkAux_step, OpVistorCtx.curr, hvl, hvh, hstepnext, hnext, hGet, flush_inline_empty,
          OpVistorCtx.next, vnext_nil, OpVistorCtx.has_inline, str_isEmpty_empty,
          str_empty_append]
      | obj =>
        have hvh : vistor_header ⟨ops, idx, some (.newLine t op), ""⟩ =
            (⟨ops, idx, some (.newLine t op), ""⟩, "", false) := by
          simp [vistor_header, OpVistorCtx.curr, hOpt, hGet]
        simp [walkAux_step, OpVistorCtx.curr, hvl, hvh, hstepnext, hnext, hGet, flush_inline_empty,
          OpVistorCtx.next, vnext_nil, OpVistorCtx.has_inline, str_isEmpty_empty,
          str_empty_append]

/-- One iteration of the walk on a line that opens a list group: the list
handler claims it, consumes the whole group (dropping this first line's text),
emits the container, and the walk continues at the unconsumed terminating
position described by `rest`. -/
theorem walk_list_group (n : Nat) (l0 : List Char × AttributesMap)
    (ls : List (List Char × AttributesMap)) (rest : List Op) (pidx : Nat)
    (h0 : (get_list_tag (mkLine l0.1 l0.2)).isSome = true)
    (hpidx : l0.1.length + 1 ≤ pidx)
    (hls : ∀ p ∈ ls, (get_list_tag (mkLine p.1 p.2)).isSome = true ∧ '\n' ∉ p.1)
    (hterm : run_terminates rest = true) :
    walkAux (n + 1)
      ⟨rest ++ mk_run ls ++ [mkLine l0.1 l0.2], pidx,
       some (.newLine l0.1 (mkLine l0.1 l0.2)), ""⟩ =
      "<ul>" ++ run_items ls ++ "</ul>" ++
        walkAux n ⟨(vnext rest 0).1, (vnext rest 0).2.1, (vnext rest 0).2.2, ""⟩ := by
  obtain ⟨tag, htag⟩ := Option.isSome_iff_exists.mp h0
  have hVL : vistor_list
      ⟨rest ++ mk_run ls ++ [mkLine l0.1 l0.2], pidx,
       some (.newLine l0.1 (mkLine l0.1 l0.2)), ""⟩ =
      (⟨(vnext rest 0).1, (vnext rest 0).2.1, (vnext rest 0).2.2, ""⟩,
       "<ul>" ++ run_items ls ++ "</ul>", true) := by
    have hw : ls.length ≤ delta_weight (rest ++ mk_run ls ++ [mkLine l0.1 l0.2]) := by
      have h1 := delta_weight_ge_length (rest ++ mk_run ls ++ [mkLine l0.1 l0.2])
      have h2 : (rest ++ mk_run ls ++ [mkLine l0.1 l0.2]).length
          = rest.length + ls.length + 1 := by
        simp [mk_run]
        omega
      omega
    obtain ⟨k, hk⟩ : ∃ k,
        seg_bound (rest ++ mk_run ls ++ [mkLine l0.1 l0.2]) = k + ls.length + 1 :=
      ⟨delta_weight (rest ++ mk_run ls ++ [mkLine l0.1 l0.2]) - ls.length,
       by simp only [seg_bound]; omega⟩
    have hLL := list_loop_run ls k rest (mkLine l0.1 l0.2) pidx
      (some (LineVisitor.newLine l0.1 (mkLine l0.1 l0.2)))
      (Or.inr (by simp only [mkLine, mkTextOp, Op.value_as_string]; simpa using hpidx))
      hls hterm
    simp only [vistor_list, curr_of_some, htag, hk, hLL]
  simp only [walkAux_step, curr_of_some, hVL]

/-! ## Claim theorems -/

/-- C4 (counterexample): the claim says `len()` is the *character count* of a
text insert for every text including multi-byte characters.  For the one-char
text `"é"` the constructor succeeds and `len()` is `2` (the UTF-8 byte
length), while the character count is `1`. -/
theorem len_counts_bytes_cex :
    (Op.insert (Value.str ['é']) none).map Op.len = some 2 ∧
    (['é'] : List Char).length = 1 ∧ (2 : Nat) ≠ 1 := by
  refine ⟨?_, rfl, by decide⟩
  decide

/-- C4 (amended): for every text insert built by the constructor, `len()` is
the UTF-8 *byte* length of the text (which equals the character count only
when every character is single-byte); for every non-text insert it is `1`;
for retain/delete it is the stored span length. -/
theorem op_len_spec :
    (∀ (s : List Char) (a : Option AttributesMap),
        (Op.insert (Value.str s) a).map Op.len = some (utf8_len s)) ∧
    (∀ (op : Op) (v : Value), op.kind = OpType.insert v →
        Value.is_string v = false → op.len = 1) ∧
    (∀ (op : Op) (n : Nat), op.kind = OpType.retain n → op.len = n) ∧
    (∀ (op : Op) (n : Nat), op.kind = OpType.delete n → op.len = n) := by
  refine ⟨?_, ?_, ?_, ?_⟩
  · intro s a
    simp [Op.insert, Value.is_string, Op.len]
  · intro op v hk hv
    cases v <;> simp_all [Op.len, Value.is_string]
  · intro op n hk
    simp [Op.len, hk]
  · intro op n hk
    simp [Op.len, hk]

/-- C4 (witness): the amended theorem applied at concrete inputs. -/
theorem op_len_spec_witness :
    (Op.insert (Value.str "hé".toList) none).map Op.len = some 3 ∧
    (Op.mk (OpType.insert Value.obj) []).len = 1 ∧
    (Op.mk (OpType.retain 7) []).len = 7 ∧
    (Op.mk (OpType.delete 5) []).len = 5 := by
  refine ⟨?_, ?_, ?_, ?_⟩
  · have h := op_len_spec.1 "hé".toList none
    simpa using h
  · exact op_len_spec.2.1 (Op.mk (OpType.insert Value.obj) []) Value.obj rfl rfl
  · exact op_len_spec.2.2.1 (Op.mk (OpType.retain 7) []) 7 rfl
  · exact op_len_spec.2.2.2 (Op.mk (OpType.delete 5) []) 5 rfl

/-- C9: `attributes()` is `None` whenever the backing map is empty, whatever
constructed the op, and is `None` for every Delete op without exception. -/
theorem attributes_none_spec :
    (∀ op : Op, op.attributes.isEmpty = true → op.attributesOpt = none) ∧
    (∀ op : Op, op.is_delete = true → op.attributesOpt = none) ∧
    (∀ (n : Nat) (op : Op), Op.delete n = some op → op.attributesOpt = none) := by
  refine ⟨?_, ?_, ?_⟩
  · intro op h
    cases hk : op.kind <;> simp [Op.attributesOpt, hk, h]
  · intro op h
    cases hk : op.kind <;> simp_all [Op.attributesOpt, Op.is_delete, hk]
  · intro n op h
    by_cases hn : n = 0
    · simp [Op.delete, hn] at h
    · simp only [Op.delete, if_neg hn, Option.some_inj] at h
      simp [← h, Op.attributesOpt]

/-- C9 (witness): the theorem applied at concrete ops. -/
theorem attributes_none_spec_witness :
    (Op.mk (OpType.insert (Value.str "x".toList)) []).attributesOpt = none ∧
    (Op.mk (OpType.delete 3) [("bold", Value.bool true)]).attributesOpt = none ∧
    (Op.mk (OpType.delete 3) []).attributesOpt = none := by
  refine ⟨?_, ?_, ?_⟩
  · exact attributes_none_spec.1 _ rfl
  · exact attributes_none_spec.2.1 (Op.mk (OpType.delete 3) [("bold", Value.bool true)]) rfl
  · exact attributes_none_spec.2.2 3 (Op.mk (OpType.delete 3) []) (by decide)

/-- C10: `retain(0, …)` and `delete(0)` always fail construction (the
`assert_ne!` fires, modelled by `none`); for every `n > 0` both succeed and
build an op of length `n`. -/
theorem retain_delete_zero_spec :
    (∀ a : Option AttributesMap, Op.retain 0 a = none) ∧
    Op.delete 0 = none ∧
    (∀ (n : Nat) (a : Option AttributesMap), 0 < n →
      (Op.retain n a).map Op.len = some n ∧ (Op.delete n).map Op.len = some n) := by
  refine ⟨?_, ?_, ?_⟩
  · intro a; simp [Op.retain]
  · simp [Op.delete]
  · intro n a hn
    constructor
    · simp [Op.retain, Nat.pos_iff_ne_zero.mp hn, Op.len]
    · simp [Op.delete, Nat.pos_iff_ne_zero.mp hn, Op.len]

/-- C10 (witness): the theorem applied at concrete lengths. -/
theorem retain_delete_zero_spec_witness :
    Op.retain 0 (some [("bold", Value.bool true)]) = none ∧
    Op.delete 0 = none ∧
    (Op.retain 3 none).map Op.len = some 3 ∧
    (Op.delete 3).map Op.len = some 3 := by
  refine ⟨retain_delete_zero_spec.1 _, retain_delete_zero_spec.2.1, ?_, ?_⟩
  · exact (retain_delete_zero_spec.2.2 3 none (by decide)).1
  · exact (retain_delete_zero_spec.2.2 3 none (by decide)).2

/-- C1 (code bug): the renderer consumes the op slice from its *end*
(`ops.last()` / `split_last`), so a delta of two newline-terminated text
inserts renders the second op's line before the first op's line — the reverse
of document order.  The repository's own (disabled) multi-op tests, and the
spec, expect document order. -/
theorem render_reverses_document_order :
    render [Op.mk (OpType.insert (Value.str "A\n".toList)) [],
            Op.mk (OpType.insert (Value.str "B\n".toList)) []] = "<p>B</p><p>A</p>" ∧
    "<p>B</p><p>A</p>" ≠ "<p>A</p><p>B</p>" := by
  constructor
  · decide
  · decide

/-- C3 (counterexample): for the op `insert "a\nb"` (with a `bold` attribute),
after the line `"a"` is produced the remaining text `"b"` has no newline, yet
the segmenter produces it as a `newLine` segment — not as an `Inline` segment
as the claim states — because the newline check inspects the op's whole text;
consequently the tail bypasses inline accumulation and the bold tag is never
emitted. -/
theorem trailing_tail_is_line_segment_cex :
    (vnext [Op.mk (OpType.insert (Value.str "a\nb".toList)) [("bold", Value.bool true)]] 2).2.2 =
      some (LineVisitor.newLine ['b']
        (Op.mk (OpType.insert (Value.str "a\nb".toList)) [("bold", Value.bool true)])) ∧
    ¬ (vnext [Op.mk (OpType.insert (Value.str "a\nb".toList)) [("bold", Value.bool true)]] 2).2.2 =
      some (LineVisitor.inline ['b']
        (Op.mk (OpType.insert (Value.str "a\nb".toList)) [("bold", Value.bool true)])) ∧
    render [Op.mk (OpType.insert (Value.str "a\nb".toList)) [("bold", Value.bool true)]] =
      "<p>a</p><p>b</p>" := by
  refine ⟨by decide, by decide, by decide⟩

/-- C3 (amended): the segmenter's no-newline check inspects the op's *whole*
text, not the unconsumed remainder.  When the whole text has no newline the
whole text becomes one `Inline` segment; but when the whole text contains a
newline, a trailing remainder without a newline is still produced as a `Line`
segment (with the cursor overshooting the end by one), so it is rendered as a
block line rather than going through inline accumulation. -/
theorem segmenter_whole_text_newline_check :
    (∀ (t : List Char) (m : AttributesMap) (xs : List Op),
       '\n' ∉ t → t ≠ [] →
       vnext (xs ++ [mkTextOp t m]) 0 =
         (xs ++ [mkTextOp t m], t.length, some (LineVisitor.inline t (mkTextOp t m)))) ∧
    (∀ (a b : List Char) (m : AttributesMap),
       '\n' ∉ a → '\n' ∉ b → b ≠ [] →
       vnext [mkTextOp (a ++ '\n' :: b) m] (a.length + 1) =
         ([mkTextOp (a ++ '\n' :: b) m], a.length + 1 + b.length + 1,
          some (LineVisitor.newLine b (mkTextOp (a ++ '\n' :: b) m)))) := by
  constructor
  · intro t m xs h hne
    exact vnext_inline_whole xs t m h hne
  · intro a b m ha hb hbne
    exact vnext_tail [] a b m hb hbne

/-- C3 (witness): the amended theorem applied at concrete inputs. -/
theorem segmenter_whole_text_newline_check_witness :
    vnext [mkTextOp "hi".toList []] 0 =
      ([mkTextOp "hi".toList []], 2,
       some (LineVisitor.inline "hi".toList (mkTextOp "hi".toList []))) ∧
    vnext [mkTextOp ('a' :: '\n' :: ['b']) []] 2 =
      ([mkTextOp ('a' :: '\n' :: ['b']) []], 4,
       some (LineVisitor.newLine ['b'] (mkTextOp ('a' :: '\n' :: ['b']) []))) := by
  constructor
  · have h := segmenter_whole_text_newline_check.1 "hi".toList [] [] (by decide) (by decide)
    simpa using h
  · have h := segmenter_whole_text_newline_check.2 ['a'] ['b'] [] (by decide) (by decide)
      (by decide)
    simpa using h

/-- Skipping every non-text-insert operation leaves nothing: the segmenter
reaches the end of the stream without producing a segment. -/
theorem vnext_all_nontext :
    ∀ ops : List Op, (∀ op ∈ ops, op.is_text_insert = false) →
      vnext ops 0 = ([], 0, none) := by
  intro ops
  induction ops using List.reverseRecOn with
  | nil => intro _; rfl
  | append_singleton xs x ih =>
    intro h
    rw [vnext_skip xs x 0 (Or.inl (h x (by simp)))]
    exact ih (fun op hop => h op (by simp [hop]))

/-- C8: every op that is not a text insert is consumed and discarded without
producing a segment, so a delta consisting only of such ops (or the empty
delta) renders to the empty string. -/
theorem non_text_ops_render_empty :
    ∀ ops : List Op, (∀ op ∈ ops, op.is_text_insert = false) → render ops = "" := by
  intro ops h
  have hv := vnext_all_nontext ops h
  show walkAux (delta_weight ops + 1 + 1) ⟨ops, 0, none, ""⟩ = ""
  rw [walkAux_step]
  have hc : OpVistorCtx.curr ⟨ops, 0, none, ""⟩ = ⟨[], 0, none, ""⟩ := by
    simp [OpVistorCtx.curr, OpVistorCtx.next, hv]
  rw [hc]
  simp [OpVistorCtx.has_inline, str_isEmpty_empty]

/-- C8 (witness): a delta of a retain, a delete and an object insert renders
to the empty string; so does the empty delta. -/
theorem non_text_ops_render_empty_witness :
    render [Op.mk (OpType.retain 3) [], Op.mk (OpType.delete 2) [],
            Op.mk (OpType.insert Value.obj) []] = "" ∧
    render [] = "" := by
  constructor
  · exact non_text_ops_render_empty _ (by decide)
  · exact non_text_ops_render_empty [] (by decide)

/-- C7: an inline segment is appended to the pending buffer wrapped in the
enabled formatting tags, in the fixed nesting order strike, underline, italic,
bold (outermost to innermost), whatever the order of the attribute
declarations in the map; a flag that is absent, `false`, or non-boolean
contributes no tag pair, and the remaining tags keep the same relative
order. -/
theorem inline_tag_nesting_order :
    ∀ (c : OpVistorCtx) (op : Op) (t : List Char),
      inline_vistor c op t =
        c.append_inline
          ((if bool_flag op "strike" then "<s>" else "") ++
           (if bool_flag op "underline" then "<u>" else "") ++
           (if bool_flag op "italic" then "<em>" else "") ++
           (if bool_flag op "bold" then "<b>" else "") ++
           String.mk t ++
           (if bool_flag op "bold" then "</b>" else "") ++
           (if bool_flag op "italic" then "</em>" else "") ++
           (if bool_flag op "underline" then "</u>" else "") ++
           (if bool_flag op "strike" then "</s>" else "")) := by
  intro c op t
  cases hb : bool_flag op "bold" <;> cases hi : bool_flag op "italic" <;>
    cases hu : bool_flag op "underline" <;> cases hs : bool_flag op "strike" <;>
      simp [inline_vistor, OpVistorCtx.append_inline, hb, hi, hu, hs,
        String.append_assoc, String.append_empty, str_empty_append]

/-- C5 (counterexample): the claim says the header level is clamped to the
inclusive range [1,6], which at value 0 would give level 1; the code only
clamps from above (`min(6, l)`), so a `header: 0` line renders as `<h0>…</h0>`,
not as the claimed clamped `<h1>…</h1>`. -/
theorem header_zero_renders_h0_cex :
    render [Op.mk (OpType.insert (Value.str "t\n".toList))
      [("header", Value.num (JNum.int 0))]] = "<h0>t</h0>" ∧
    "<h0>t</h0>" ≠
      "<h" ++ toString (max 1 (min 6 (0 : Nat))) ++ ">t</h" ++
        toString (max 1 (min 6 (0 : Nat))) ++ ">" := by
  constructor
  · decide
  · decide

/-- C5 (amended): for a line whose op carries a numeric `header` value
representable as `u64`, the header handler claims it and emits a heading at
level `min 6 l` — clamped from above only, so every value above 6 renders as
`<h6>` but 0 renders as `<h0>`; for a non-numeric header value the handler
does not claim the line, which then falls through to the paragraph
fallback. -/
theorem header_clamp_spec :
    (∀ (c : OpVistorCtx) (t : List Char) (op : Op) (attrs : AttributesMap)
       (j : JNum) (l : Nat),
       c.current = some (LineVisitor.newLine t op) →
       c.inline_buf = "" →
       op.attributesOpt = some attrs →
       attrs_get attrs "header" = some (Value.num j) →
       j.as_u64 = some l →
       vistor_header c =
         (c.next,
          "<h" ++ toString (min 6 l) ++ ">" ++ String.mk t ++
            "</h" ++ toString (min 6 l) ++ ">", true)) ∧
    (∀ (c : OpVistorCtx) (t : List Char) (op : Op) (attrs : AttributesMap) (v : Value),
       c.current = some (LineVisitor.newLine t op) →
       op.attributesOpt = some attrs →
       attrs_get attrs "header" = some v →
       (∀ j, v ≠ Value.num j) →
       vistor_header c = (c, "", false)) := by
  constructor
  · rintro ⟨ops, idx, cur, buf⟩ t op attrs j l hcur hbuf hOpt hGet hU
    simp only at hcur hbuf
    subst hcur hbuf
    simp [vistor_header, curr_of_some, hOpt, hGet, hU, flush_inline_empty,
      String.append_empty, str_empty_append]
  · rintro ⟨ops, idx, cur, buf⟩ t op attrs v hcur hOpt hGet hv
    simp only at hcur
    subst hcur
    cases v with
    | num j => exact absurd rfl (hv j)
    | str s => simp [vistor_header, curr_of_some, hOpt, hGet]
    | bool b => simp [vistor_header, curr_of_some, hOpt, hGet]
    | null => simp [vistor_header, curr_of_some, hOpt, hGet]
    | obj => simp [vistor_header, curr_of_some, hOpt, hGet]

/-- C5 (witness): a `header: 9` line renders as an `<h6>` heading, and a
non-numeric `header` value is not claimed by the header handler. -/
theorem header_clamp_spec_witness :
    vistor_header ⟨[], 0,
        some (LineVisitor.newLine "t".toList
          (Op.mk (OpType.insert (Value.str "t\n".toList))
            [("header", Value.num (JNum.int 9))])), ""⟩ =
      (⟨[], 0, none, ""⟩, "<h6>t</h6>", true) ∧
    vistor_header ⟨[], 0,
        some (LineVisitor.newLine "t".toList
          (Op.mk (OpType.insert (Value.str "t\n".toList))
            [("header", Value.str "big".toList)])), ""⟩ =
      (⟨[], 0,
        some (LineVisitor.newLine "t".toList
          (Op.mk (OpType.insert (Value.str "t\n".toList))
            [("header", Value.str "big".toList)])), ""⟩, "", false) := by
  constructor
  · have h := header_clamp_spec.1 ⟨[], 0,
      some (LineVisitor.newLine "t".toList
        (Op.mk (OpType.insert (Value.str "t\n".toList))
          [("header", Value.num (JNum.int 9))])), ""⟩
      "t".toList
      (Op.mk (OpType.insert (Value.str "t\n".toList)) [("header", Value.num (JNum.int 9))])
      [("header", Value.num (JNum.int 9))] (JNum.int 9) 9
      rfl rfl (by decide) (by decide) (by decide)
    rw [h]
    decide
  · have h := header_clamp_spec.2 ⟨[], 0,
      some (LineVisitor.newLine "t".toList
        (Op.mk (OpType.insert (Value.str "t\n".toList))
          [("header", Value.str "big".toList)])), ""⟩
      "t".toList
      (Op.mk (OpType.insert (Value.str "t\n".toList)) [("header", Value.str "big".toList)])
      [("header", Value.str "big".toList)] (Value.str "big".toList)
      rfl (by decide) (by decide) (by intro j h; cases h)
    exact h

/-- C2: for a delta that is one maximal run of list lines (each line's op
carrying a `list` attribute equal to `"ordered"` or `"bullet"`), the rendered
`<ul>` container holds one `<li>` for every line of the run *except the
first*: the first qualifying line is consumed by the list-detection check and
its text never reaches the output.  (`mk_run` lists the lines in segment
order; the op list is its reverse because the renderer consumes ops from the
end of the slice.) -/
theorem list_run_drops_first_line :
    ∀ (l0 : List Char × AttributesMap) (ls : List (List Char × AttributesMap)),
      (∀ p ∈ l0 :: ls,
        (attrs_get p.2 "list" = some (Value.str "ordered".toList) ∨
         attrs_get p.2 "list" = some (Value.str "bullet".toList)) ∧ '\n' ∉ p.1) →
      render (mk_run (l0 :: ls)) = "<ul>" ++ run_items ls ++ "</ul>" := by
  intro l0 ls h
  have h0 : (get_list_tag (mkLine l0.1 l0.2)).isSome = true :=
    get_list_tag_mkLine_some l0.1 l0.2 (h l0 (List.mem_cons_self l0 ls)).1
  have hl0nl : '\n' ∉ l0.1 := (h l0 (List.mem_cons_self l0 ls)).2
  have hls : ∀ p ∈ ls, (get_list_tag (mkLine p.1 p.2)).isSome = true ∧ '\n' ∉ p.1 :=
    fun p hp => ⟨get_list_tag_mkLine_some p.1 p.2 (h p (List.mem_cons_of_mem l0 hp)).1,
      (h p (List.mem_cons_of_mem l0 hp)).2⟩
  show walkAux (delta_weight (mk_run (l0 :: ls)) + 1 + 1) ⟨mk_run (l0 :: ls), 0, none, ""⟩ = _
  have hcur : OpVistorCtx.curr ⟨mk_run (l0 :: ls), 0, none, ""⟩ =
      ⟨mk_run ls ++ [mkLine l0.1 l0.2], l0.1.length + 1,
       some (LineVisitor.newLine l0.1 (mkLine l0.1 l0.2)), ""⟩ := by
    simp only [OpVistorCtx.curr, OpVistorCtx.next, mk_run_cons]
    rw [show mkLine l0.1 l0.2 = mkTextOp (l0.1 ++ '\n' :: []) l0.2 from rfl]
    rw [vnext_line0 (mk_run ls) l0.1 [] l0.2 hl0nl]
  have hshift : walkAux (delta_weight (mk_run (l0 :: ls)) + 1 + 1)
      ⟨mk_run (l0 :: ls), 0, none, ""⟩ =
      walkAux (delta_weight (mk_run (l0 :: ls)) + 1 + 1)
      ⟨mk_run ls ++ [mkLine l0.1 l0.2], l0.1.length + 1,
       some (LineVisitor.newLine l0.1 (mkLine l0.1 l0.2)), ""⟩ := by
    conv_lhs => rw [walkAux_step, hcur]
    conv_rhs => rw [walkAux_step, curr_of_some]
  rw [hshift]
  have hWLG := walk_list_group (delta_weight (mk_run (l0 :: ls)) + 1) l0 ls []
    (l0.1.length + 1) h0 (Nat.le_refl _) hls (by decide)
  simp only [List.nil_append] at hWLG
  rw [hWLG]
  rw [show vnext [] 0 = ([], 0, none) from rfl]
  rw [walk_nil_empty (delta_weight (mk_run (l0 :: ls))) 0]
  exact String.append_empty _

/-- C2 (witness): a two-line bullet/ordered run renders with only the second
line as an item; the first line's text is dropped. -/
theorem list_run_drops_first_line_witness :
    render (mk_run [("one".toList, [("list", Value.str "bullet".toList)]),
                    ("two".toList, [("list", Value.str "ordered".toList)])]) =
      "<ul><li>two</li></ul>" := by
  have h := list_run_drops_first_line
    ("one".toList, [("list", Value.str "bullet".toList)])
    [("two".toList, [("list", Value.str "ordered".toList)])]
    (by decide)
  rw [h]
  decide

/-- C6: when a list group is being rendered and the next line's attributes
carry no `list` value, the handler closes the container without emitting that
line as an item; the line is left as the current segment and is re-dispatched
through the full handler chain, so the whole delta renders as the list
container followed by exactly what the terminating line renders on its own. -/
theorem list_terminator_redispatch :
    ∀ (tt : List Char) (tm : AttributesMap) (l0 : List Char × AttributesMap)
      (ls : List (List Char × AttributesMap)),
      (∀ p ∈ l0 :: ls,
        (attrs_get p.2 "list" = some (Value.str "ordered".toList) ∨
         attrs_get p.2 "list" = some (Value.str "bullet".toList)) ∧ '\n' ∉ p.1) →
      '\n' ∉ tt →
      attrs_get tm "list" = none →
      render (mkLine tt tm :: mk_run (l0 :: ls)) =
        "<ul>" ++ run_items ls ++ "</ul>" ++ render [mkLine tt tm] := by
  intro tt tm l0 ls h htt htm
  have h0 : (get_list_tag (mkLine l0.1 l0.2)).isSome = true :=
    get_list_tag_mkLine_some l0.1 l0.2 (h l0 (List.mem_cons_self l0 ls)).1
  have hl0nl : '\n' ∉ l0.1 := (h l0 (List.mem_cons_self l0 ls)).2
  have hls : ∀ p ∈ ls, (get_list_tag (mkLine p.1 p.2)).isSome = true ∧ '\n' ∉ p.1 :=
    fun p hp => ⟨get_list_tag_mkLine_some p.1 p.2 (h p (List.mem_cons_of_mem l0 hp)).1,
      (h p (List.mem_cons_of_mem l0 hp)).2⟩
  have hTermTag : get_list_tag (mkLine tt tm) = none := get_list_tag_mkLine_none tt tm htm
  have hvTerm : vnext [mkLine tt tm] 0 =
      ([mkLine tt tm], tt.length + 1, some (LineVisitor.newLine tt (mkLine tt tm))) := by
    have h1 := vnext_line0 [] tt [] tm htt
    simpa using h1
  have htermR : run_terminates [mkLine tt tm] = true := by
    simp [run_terminates, hvTerm, hTermTag]
  have hvTerm2 : vnext [mkLine tt tm] (tt.length + 1) = ([], 0, none) := by
    have h1 := vnext_skip [] (mkLine tt tm) (tt.length + 1)
      (Or.inr (by simp [mkLine, mkTextOp, Op.value_as_string]))
    simpa using h1
  -- the right-hand side: rendering the terminating line alone
  have hRHS : render [mkLine tt tm] = line_block_html tt (mkLine tt tm) := by
    show walkAux (delta_weight [mkLine tt tm] + 1 + 1) ⟨[mkLine tt tm], 0, none, ""⟩ = _
    have hcurT : OpVistorCtx.curr ⟨[mkLine tt tm], 0, none, ""⟩ =
        ⟨[mkLine tt tm], tt.length + 1,
         some (LineVisitor.newLine tt (mkLine tt tm)), ""⟩ := by
      simp only [OpVistorCtx.curr, OpVistorCtx.next, hvTerm]
    have hshiftT : walkAux (delta_weight [mkLine tt tm] + 1 + 1)
        ⟨[mkLine tt tm], 0, none, ""⟩ =
        walkAux (delta_weight [mkLine tt tm] + 1 + 1)
        ⟨[mkLine tt tm], tt.length + 1,
         some (LineVisitor.newLine tt (mkLine tt tm)), ""⟩ := by
      conv_lhs => rw [walkAux_step, hcurT]
      conv_rhs => rw [walkAux_step, curr_of_some]
    rw [hshiftT]
    exact walk_last_line (delta_weight [mkLine tt tm]) tt (mkLine tt tm)
      [mkLine tt tm] (tt.length + 1) hTermTag hvTerm2
  -- the left-hand side
  show walkAux (delta_weight (mkLine tt tm :: mk_run (l0 :: ls)) + 1 + 1)
    ⟨mkLine tt tm :: mk_run (l0 :: ls), 0, none, ""⟩ = _
  have hops : mkLine tt tm :: mk_run (l0 :: ls)
      = (mkLine tt tm :: mk_run ls) ++ [mkLine l0.1 l0.2] := by
    rw [mk_run_cons]
    exact (List.cons_append _ _ _).symm
  have hcur : OpVistorCtx.curr ⟨mkLine tt tm :: mk_run (l0 :: ls), 0, none, ""⟩ =
      ⟨(mkLine tt tm :: mk_run ls) ++ [mkLine l0.1 l0.2], l0.1.length + 1,
       some (LineVisitor.newLine l0.1 (mkLine l0.1 l0.2)), ""⟩ := by
    simp only [OpVistorCtx.curr, OpVistorCtx.next, hops]
    rw [show mkLine l0.1 l0.2 = mkTextOp (l0.1 ++ '\n' :: []) l0.2 from rfl]
    rw [vnext_line0 (mkLine tt tm :: mk_run ls) l0.1 [] l0.2 hl0nl]
  have hshift : walkAux (delta_weight (mkLine tt tm :: mk_run (l0 :: ls)) + 1 + 1)
      ⟨mkLine tt tm :: mk_run (l0 :: ls), 0, none, ""⟩ =
      walkAux (delta_weight (mkLine tt tm :: mk_run (l0 :: ls)) + 1 + 1)
      ⟨(mkLine tt tm :: mk_run ls) ++ [mkLine l0.1 l0.2], l0.1.length + 1,
       some (LineVisitor.newLine l0.1 (mkLine l0.1 l0.2)), ""⟩ := by
    conv_lhs => rw [walkAux_step, hcur]
    conv_rhs => rw [walkAux_step, curr_of_some]
  rw [hshift]
  have hWLG := walk_list_group (delta_weight (mkLine tt tm :: mk_run (l0 :: ls)) + 1)
    l0 ls [mkLine tt tm] (l0.1.length + 1) h0 (Nat.le_refl _) hls htermR
  simp only [List.singleton_append] at hWLG
  rw [hWLG]
  rw [hvTerm]
  obtain ⟨k, hk⟩ : ∃ k,
      delta_weight (mkLine tt tm :: mk_run (l0 :: ls)) + 1 = k + 1 + 1 := by
    have h1 := delta_weight_ge_length (mkLine tt tm :: mk_run (l0 :: ls))
    have h2 : 1 ≤ (mkLine tt tm :: mk_run (l0 :: ls)).length := by simp
    exact ⟨delta_weight (mkLine tt tm :: mk_run (l0 :: ls)) - 1, by omega⟩
  rw [hk]
  rw [walk_last_line k tt (mkLine tt tm) [mkLine tt tm] (tt.length + 1) hTermTag hvTerm2]
  rw [hRHS]

/-- C6 (witness): a bullet run terminated by a plain line renders the
container followed by the line's own standalone rendering (a paragraph). -/
theorem list_terminator_redispatch_witness :
    render (mkLine "end".toList [] ::
            mk_run [("one".toList, [("list", Value.str "bullet".toList)]),
                    ("two".toList, [("list", Value.str "bullet".toList)])]) =
      "<ul><li>two</li></ul><p>end</p>" := by
  have h := list_terminator_redispatch "end".toList []
    ("one".toList, [("list", Value.str "bullet".toList)])
    [("two".toList, [("list", Value.str "bullet".toList)])]
    (by decide) (by decide) (by decide)
  rw [h]
  decide
